import Mathlib

/-!
# Verification of the DBTable table-editor core

A shallow embedding of the data-editing core of the `Plugin_DBTable`
repository.  The repository ships the plugin adapter (`src/lib.rs`:
`TableEditorPlugin`, `TableEditorWrapper`) together with declarations of the
core modules (`database`, `reflection`, `cell_editors`, `editor`,
`table_view`); the core modules' bodies are not part of the shipped sources,
so those components are modelled from the specification's component
contracts (each such definition carries a `Modelled from the spec:` note).
The plugin adapter's behaviour is translated directly from `src/lib.rs`.
-/

namespace DBTable

/-! ## Values and value kinds (TypeMapper data model)

Modelled from the spec: `Value` is "a tagged union over {Null, Integer(64-bit
signed), Real(64-bit float), Text, Blob(byte sequence), Boolean, DateTime}".
The 64-bit IEEE-754 real payload is modelled opaquely (by its representation,
a value the engine passes through unchanged); no claim depends on float
arithmetic.  Integers are `Int` with 64-bit representability tracked by
`representable`. -/

inductive Value where
  | null
  | integer (i : Int)
  | real (r : String)
  | text (s : String)
  | blob (b : List Nat)
  | boolean (b : Bool)
  | datetime (s : String)
deriving DecidableEq

/-- Modelled from the spec: the canonical editable value kinds
"(integer, real, text, blob, boolean, date/time, null)". -/
inductive ValueKind where
  | integer
  | real
  | text
  | blob
  | boolean
  | datetime
  | nullKind
deriving DecidableEq

/-- Modelled from the spec: the embedded engine's native storage classes
(NULL, INTEGER, REAL, TEXT, BLOB). -/
inductive NativeValue where
  | null
  | integer (i : Int)
  | real (r : String)
  | text (s : String)
  | blob (b : List Nat)
deriving DecidableEq

/-- Modelled from the spec: `to_native(Value) -> engine value`.  Booleans are
stored as native integers 0/1 and date/times as native text, matching the
engine's storage classes; every other payload passes through unchanged. -/
def to_native : Value → NativeValue
  | .null => .null
  | .integer i => .integer i
  | .real r => .real r
  | .text s => .text s
  | .blob b => .blob b
  | .boolean b => .integer (if b then 1 else 0)
  | .datetime s => .text s

/-- Modelled from the spec: `from_native(engine value, ValueKind) -> Value`,
total over the engine's value space.  A native integer read under the boolean
kind decodes to a boolean; native text read under the date/time kind decodes
to a date/time; everything else keeps its storage class. -/
def from_native : NativeValue → ValueKind → Value
  | .null, _ => .null
  | .integer i, .boolean => .boolean (decide (i ≠ 0))
  | .integer i, _ => .integer i
  | .real r, _ => .real r
  | .text s, .datetime => .datetime s
  | .text s, _ => .text s
  | .blob b, _ => .blob b

/-- A Value's tag is consistent with a kind when it is the kind's own tag;
Null is legal for every kind (spec: "Null, which is legal for any nullable
column"). -/
def tagConsistent : Value → ValueKind → Bool
  | .null, _ => true
  | .integer _, .integer => true
  | .real _, .real => true
  | .text _, .text => true
  | .blob _, .blob => true
  | .boolean _, .boolean => true
  | .datetime _, .datetime => true
  | _, _ => false

/-- A Value is representable when its integer payload fits in a 64-bit signed
integer; all other payloads are representable as given. -/
def representable : Value → Bool
  | .integer i => decide (-(2 ^ 63) ≤ i) && decide (i < 2 ^ 63)
  | _ => true

/-! ## TypeMapper: declared-type affinity (`kind_of`) -/

/-- `leadsWith needle hay` holds when `hay` starts with `needle`. -/
def leadsWith : List Char → List Char → Bool
  | [], _ => true
  | _ :: _, [] => false
  | a :: t, b :: u => decide (a = b) && leadsWith t u

/-- `containsSeq needle hay` holds when `needle` occurs contiguously
somewhere inside `hay`. -/
def containsSeq (needle : List Char) : List Char → Bool
  | [] => leadsWith needle []
  | c :: t => leadsWith needle (c :: t) || containsSeq needle t

/-- Propositional form of contiguous occurrence. -/
def containsSeqP (needle hay : List Char) : Prop :=
  ∃ l r, hay = l ++ needle ++ r

/-- Modelled from the spec: the canonical integer-affinity keyword. -/
def intKeywords : List String := ["INT"]

/-- Modelled from the spec: the canonical real-affinity keywords. -/
def realKeywords : List String := ["REAL", "FLOA", "DOUB"]

/-- Modelled from the spec: the canonical text-affinity keywords. -/
def textKeywords : List String := ["CHAR", "CLOB", "TEXT"]

/-- Modelled from the spec: the canonical blob-affinity keyword. -/
def blobKeywords : List String := ["BLOB"]

/-- Upper-cased character sequence of a declared type. -/
def upperChars (s : String) : List Char :=
  s.toList.map Char.toUpper

/-- A declared type matches a keyword group when some keyword of the group
occurs in its upper-cased spelling. -/
def matchesAny (kws : List String) (declaredType : String) : Bool :=
  kws.any fun kw => containsSeq kw.toList (upperChars declaredType)

/-- Propositional form of `matchesAny`. -/
def matchesAnyP (kws : List String) (declaredType : String) : Prop :=
  ∃ kw ∈ kws, containsSeqP kw.toList (upperChars declaredType)

/-- Modelled from the spec: `kind_of(declared_type) -> ValueKind` "using the
engine's type-affinity rules (substring matching against canonical keywords:
integer-like, real-like, text-like, blob-like; unrecognized types default to
text affinity)". -/
def kind_of (declaredType : String) : ValueKind :=
  if matchesAny intKeywords declaredType then .integer
  else if matchesAny realKeywords declaredType then .real
  else if matchesAny textKeywords declaredType then .text
  else if matchesAny blobKeywords declaredType then .blob
  else .text

/-! ## CellEditors: validation and formatting

Modelled from the spec: "pure functions keyed by ValueKind:
`validate(raw_input) -> Result<Value, ValidationError>` and
`format(Value) -> text`". -/

/-- A typed validation failure (spec: "`ValidationError` (user input cannot
be converted to the target ValueKind)"). -/
structure ValidationError where
  msg : String
deriving DecidableEq

/-- The literal the editor recognises as a request to store NULL. -/
def nullLiteral : String := "NULL"

/-- A 64-bit signed integer bound check. -/
def inI64 (i : Int) : Bool :=
  decide (-(2 ^ 63) ≤ i) && decide (i < 2 ^ 63)

/-- Hex digit value of one character, when it is one. -/
def hexVal (c : Char) : Option Nat :=
  if c.toNat ≥ 48 ∧ c.toNat ≤ 57 then some (c.toNat - 48)
  else if c.toNat ≥ 97 ∧ c.toNat ≤ 102 then some (c.toNat - 87)
  else if c.toNat ≥ 65 ∧ c.toNat ≤ 70 then some (c.toNat - 55)
  else none

/-- Hex-decode a character sequence into bytes, rejecting malformed input. -/
def hexDecode : List Char → Option (List Nat)
  | [] => some []
  | [_] => none
  | a :: b :: t =>
    match hexVal a, hexVal b, hexDecode t with
    | some x, some y, some r => some ((x * 16 + y) :: r)
    | _, _, _ => none

/-- Hex-encode bytes for display. -/
def hexDigit (n : Nat) : Char :=
  if n < 10 then Char.ofNat (48 + n) else Char.ofNat (87 + n)

/-- Hex encoding of a byte sequence. -/
def hexEncode (b : List Nat) : String :=
  String.mk (b.foldr (fun x acc => hexDigit (x / 16 % 16) :: hexDigit (x % 16) :: acc) [])

/-- A well-formed decimal digit run. -/
def allDigits (cs : List Char) : Bool :=
  cs.all fun c => decide (48 ≤ c.toNat) && decide (c.toNat ≤ 57)

/-- Numeric value of a decimal digit run. -/
def digitsToNat (cs : List Char) : Nat :=
  cs.foldl (fun n c => n * 10 + (c.toNat - 48)) 0

/-- Parse an optionally signed decimal integer; any other shape is
rejected. -/
def parseInt (s : String) : Option Int :=
  match s.toList with
  | [] => none
  | '-' :: t =>
    if decide (t ≠ []) && allDigits t then some (-(digitsToNat t : Int))
    else none
  | cs =>
    if allDigits cs then some (digitsToNat cs) else none

/-- A well-formed floating literal: optional sign, a digit run, optionally a
point followed by a digit run. -/
def isRealLiteral (s : String) : Bool :=
  let body :=
    match s.toList with
    | '-' :: t => t
    | '+' :: t => t
    | t => t
  match body.splitOn '.' with
  | [w] => decide (w ≠ []) && allDigits w
  | [w, f] => decide (w ≠ []) && decide (f ≠ []) && allDigits w && allDigits f
  | _ => false

/-- The canonical date/time shape `YYYY-MM-DD HH:MM:SS`. -/
def isCanonicalDateTime (s : String) : Bool :=
  match s.toList with
  | [y1, y2, y3, y4, '-', m1, m2, '-', d1, d2, ' ',
     h1, h2, ':', n1, n2, ':', c1, c2] =>
    allDigits [y1, y2, y3, y4, m1, m2, d1, d2, h1, h2, n1, n2, c1, c2]
  | _ => false

/-- Modelled from the spec: per-kind validation of raw user input.  The null
literal is accepted exactly for nullable columns; integer kind rejects
non-integral or out-of-range text; boolean kind accepts the recognized
truthy/falsy literals; blob input is hex-decoded, rejecting malformed
encodings; date/time accepts the canonical format and defers nonconforming
non-empty input to text; text accepts any input. -/
def validate (k : ValueKind) (nullable : Bool) (raw : String) :
    Except ValidationError Value :=
  if raw = nullLiteral then
    if nullable then .ok .null
    else .error ⟨"column is not nullable"⟩
  else
    match k with
    | .integer =>
      match parseInt raw with
      | some i => if inI64 i then .ok (.integer i) else .error ⟨"integer out of range"⟩
      | none => .error ⟨"not an integer"⟩
    | .real =>
      if isRealLiteral raw then .ok (.real raw) else .error ⟨"not a real literal"⟩
    | .text => .ok (.text raw)
    | .blob =>
      match hexDecode raw.toList with
      | some bytes => .ok (.blob bytes)
      | none => .error ⟨"malformed hex encoding"⟩
    | .boolean =>
      if raw = "1" ∨ raw.toList.map Char.toLower = "true".toList then
        .ok (.boolean true)
      else if raw = "0" ∨ raw.toList.map Char.toLower = "false".toList then
        .ok (.boolean false)
      else .error ⟨"not a boolean literal"⟩
    | .datetime =>
      if isCanonicalDateTime raw then .ok (.datetime raw)
      else if raw ≠ "" then .ok (.text raw)
      else .error ⟨"empty date/time"⟩
    | .nullKind => .error ⟨"column holds only NULL"⟩

/-- Modelled from the spec: `format(Value) -> text` for display. -/
def format : Value → String
  | .null => "NULL"
  | .integer i => toString i
  | .real r => r
  | .text s => s
  | .blob b => hexEncode b
  | .boolean b => if b then "true" else "false"
  | .datetime s => s

/-- Validation outcome is a failure. -/
def isValidationFailure (r : Except ValidationError Value) : Bool :=
  match r with
  | .error _ => true
  | .ok _ => false

/-! ## Association-list helpers

The staged-edit overlay, rows and the database snapshot are finite maps,
embedded as association lists. -/

/-- First value bound to a key. -/
def lookupA {α β : Type} [DecidableEq α] : List (α × β) → α → Option β
  | [], _ => none
  | (a, b) :: t, x => if x = a then some b else lookupA t x

/-- Remove every binding of a key. -/
def eraseA {α β : Type} [DecidableEq α] : List (α × β) → α → List (α × β)
  | [], _ => []
  | (a, b) :: t, x => if x = a then eraseA t x else (a, b) :: eraseA t x

/-- Bind a key to a value, replacing any previous binding. -/
def insertA {α β : Type} [DecidableEq α] (l : List (α × β)) (x : α) (b : β) :
    List (α × β) :=
  (x, b) :: eraseA l x

/-! ## Schema model (SchemaReflector)

Modelled from the spec: `TypeSchema` holds `TableDescriptor`s, each with
ordered `ColumnDescriptor`s (name, declared type, nullable flag,
is-primary-key flag, default value) and an optional row-identity strategy
(explicit primary key column set, or implicit row id); tables without one
are read-only in the editor. -/

structure ColumnDescriptor where
  name : String
  declaredType : String
  nullable : Bool
  isPrimaryKey : Bool
  defaultVal : Option Value
deriving DecidableEq

/-- Modelled from the spec: how a row of the table is identified, when it
can be. -/
inductive RowIdentityStrategy where
  | primaryKey (cols : List String)
  | implicitRowId
deriving DecidableEq

structure TableDescriptor where
  name : String
  columns : List ColumnDescriptor
  rowIdentity : Option RowIdentityStrategy
deriving DecidableEq

/-- Modelled from the spec: the reflector uses the explicit primary key when
one exists, falls back to the engine's implicit row identity when available,
and otherwise records no row-identity strategy. -/
def rowIdentityStrategyOf (cols : List ColumnDescriptor)
    (hasImplicitRowId : Bool) : Option RowIdentityStrategy :=
  let pk := (cols.filter fun c => c.isPrimaryKey).map fun c => c.name
  if pk ≠ [] then some (.primaryKey pk)
  else if hasImplicitRowId then some .implicitRowId
  else none

/-- Build one table's descriptor from its reflected column metadata. -/
def buildTable (name : String) (cols : List ColumnDescriptor)
    (hasImplicitRowId : Bool) : TableDescriptor :=
  ⟨name, cols, rowIdentityStrategyOf cols hasImplicitRowId⟩

/-- A table with no row-identity strategy is read-only in the editor. -/
def readOnly (t : TableDescriptor) : Bool :=
  t.rowIdentity.isNone

/-! ## TableModel: materialized page and staged-edit overlay

Modelled from the spec: a page is "an ordered sequence of (RowIdentity,
mapping from column name to Value)"; staged edits map "(RowIdentity, column
name) → proposed new Value, plus the Value originally read (for conflict
detection)"; `is_dirty`/`dirty_count` are derived from the staged-edit map;
the snapshot is never mutated in place. -/

/-- The tuple of primary-key (or row id) values identifying one row. -/
abbrev RowIdentity := List Value

/-- One materialized row: column name to Value. -/
abbrev Row := List (String × Value)

structure PageRow where
  rid : RowIdentity
  cells : Row
deriving DecidableEq

/-- A staged cell edit: the Value originally read and the proposed Value. -/
structure StagedEdit where
  original : Value
  proposed : Value
deriving DecidableEq

/-- The staged-edit overlay, keyed by (row identity, column name). -/
abbrev StagedMap := List ((RowIdentity × String) × StagedEdit)

structure TableModel where
  table : TableDescriptor
  rows : List PageRow
  staged : StagedMap
deriving DecidableEq

/-- The Value the page loaded for a cell (read from the immutable
snapshot, never from the overlay). -/
def loaded_value (m : TableModel) (rid : RowIdentity) (col : String) :
    Option Value :=
  match m.rows.find? fun r => decide (r.rid = rid) with
  | some r => lookupA r.cells col
  | none => none

/-- The Value a cell shows: the staged proposal when one exists, the loaded
Value otherwise (read-through overlay). -/
def value_at (m : TableModel) (rid : RowIdentity) (col : String) :
    Option Value :=
  match lookupA m.staged (rid, col) with
  | some e => some e.proposed
  | none => loaded_value m rid col

/-- Number of staged (dirty) cells, derived from the staged-edit map. -/
def dirty_count (m : TableModel) : Nat :=
  m.staged.length

/-- Column descriptor of a named column. -/
def findCol (t : TableDescriptor) (col : String) : Option ColumnDescriptor :=
  t.columns.find? fun c => decide (c.name = col)

/-- Modelled from the spec: `stage_edit(row_identity, column, raw_input)`
delegates to the CellEditors registry for validation against the column's
ValueKind and, only on success, records a StagedEdit capturing both the
original and proposed Value.  A read-only table (no row-identity strategy)
fails deterministically without mutating state.  The model and the error
(when any) are both returned; on error the model is returned unchanged. -/
def stage_edit (m : TableModel) (rid : RowIdentity) (col : String)
    (raw : String) : TableModel × Option ValidationError :=
  if readOnly m.table then
    (m, some ⟨"table is read-only"⟩)
  else
    match findCol m.table col with
    | none => (m, some ⟨"no such column"⟩)
    | some cd =>
      match validate (kind_of cd.declaredType) cd.nullable raw with
      | .error e => (m, some e)
      | .ok v =>
        match loaded_value m rid col with
        | none => (m, some ⟨"no such row"⟩)
        | some orig =>
          ({ m with staged := insertA m.staged (rid, col) ⟨orig, v⟩ }, none)

/-- Modelled from the spec: `discard_edit` clears one staged edit without
touching the database. -/
def discard_edit (m : TableModel) (rid : RowIdentity) (col : String) :
    TableModel :=
  { m with staged := eraseA m.staged (rid, col) }

/-- Modelled from the spec: `discard_all` clears all staged state without
touching the database. -/
def discard_all (m : TableModel) : TableModel :=
  { m with staged := [] }

/-! ## CommitEngine

Modelled from the spec: `commit(staged_edits)` groups staged edits by
RowIdentity; re-reads each targeted row's original columns and compares them
against the recorded original Values (any mismatch is a conflict, excluded
from the transaction and reported while the other groups still commit);
builds one UPDATE per non-conflicting group setting only the staged columns;
and executes all of them inside one transaction that rolls back entirely if
any statement fails, reporting which group caused the failure.  Statement
failure (constraint violation, type error) is injected through a `fails`
oracle, matching the spec's simulated failure injection. -/

/-- The database state the engine reads and writes: row identity to row. -/
abbrev Db := List (RowIdentity × Row)

/-- One compiled UPDATE: the targeted row and the (column, new Value)
assignments for exactly the staged columns. -/
structure UpdateStmt where
  rid : RowIdentity
  sets : List (String × Value)
deriving DecidableEq

/-- The row identities carrying staged edits, each once. -/
def stagedRids (staged : StagedMap) : List RowIdentity :=
  (staged.map fun e => e.1.1).dedup

/-- The staged (column, edit) pairs of one row. -/
def groupOf (staged : StagedMap) (rid : RowIdentity) :
    List (String × StagedEdit) :=
  staged.filterMap fun e => if e.1.1 = rid then some (e.1.2, e.2) else none

/-- Staged edits grouped by row identity. -/
def groupByRid (staged : StagedMap) :
    List (RowIdentity × List (String × StagedEdit)) :=
  (stagedRids staged).map fun rid => (rid, groupOf staged rid)

/-- Re-read the targeted row and compare each staged column's current value
against the recorded original: a missing row or any mismatch is a
conflict. -/
def hasConflict (db : Db) (g : RowIdentity × List (String × StagedEdit)) :
    Bool :=
  match lookupA db g.1 with
  | none => true
  | some row => g.2.any fun ce => decide (lookupA row ce.1 ≠ some ce.2.original)

/-- Compile one non-conflicting group into its UPDATE. -/
def buildStmt (g : RowIdentity × List (String × StagedEdit)) : UpdateStmt :=
  ⟨g.1, g.2.map fun ce => (ce.1, ce.2.proposed)⟩

/-- Overwrite one column of a row. -/
def setCol (row : Row) (c : String) (v : Value) : Row :=
  row.map fun p => if p.1 = c then (p.1, v) else p

/-- Apply an UPDATE's assignments to a row. -/
def applySets (row : Row) (sets : List (String × Value)) : Row :=
  sets.foldl (fun r cv => setCol r cv.1 cv.2) row

/-- Apply one UPDATE to the database. -/
def applyStmt (db : Db) (st : UpdateStmt) : Db :=
  db.map fun p => if p.1 = st.rid then (p.1, applySets p.2 st.sets) else p

/-- Execute the transaction's statements in order.  `snapshot` is the state
at `begin_transaction`; when a statement fails the whole transaction rolls
back to it and the failing group's identity is reported. -/
def execStmts (snapshot : Db) (db : Db) (fails : UpdateStmt → Bool) :
    List UpdateStmt → Db × Option RowIdentity
  | [] => (db, none)
  | st :: rest =>
    if fails st then (snapshot, some st.rid)
    else execStmts snapshot (applyStmt db st) fails rest

/-- Result component of a commit attempt. -/
inductive CommitResult where
  | committed (affected : Nat)
  | rolledBack (failedGroup : RowIdentity)
deriving DecidableEq

/-- Modelled from the spec: `TransactionOutcome` reports the conflicting
groups and either success with a row count or rollback with the failing
group. -/
structure TransactionOutcome where
  conflicts : List RowIdentity
  result : CommitResult
deriving DecidableEq

/-- The identities of the staged groups the conflict check excludes. -/
def conflictRids (db : Db) (staged : StagedMap) : List RowIdentity :=
  ((groupByRid staged).filter fun g => hasConflict db g).map fun g => g.1

/-- The UPDATEs compiled from the non-conflicting groups. -/
def commitStmts (db : Db) (staged : StagedMap) : List UpdateStmt :=
  (((groupByRid staged).filter fun g => !hasConflict db g).map buildStmt)

/-- Modelled from the spec: `commit(staged_edits) -> TransactionOutcome`
together with the database state after the attempt. -/
def commit (db : Db) (staged : StagedMap) (fails : UpdateStmt → Bool) :
    Db × TransactionOutcome :=
  match execStmts db db fails (commitStmts db staged) with
  | (db2, none) =>
    (db2, ⟨conflictRids db staged, .committed (commitStmts db staged).length⟩)
  | (_, some g) => (db, ⟨conflictRids db staged, .rolledBack g⟩)

/-! ## Editor session: the page together with its database

Discarding staged state is an in-memory operation: it acts on the
`TableModel` only.  `EditorSession` pairs the model with the database so
that the frame condition (no statement issued, database untouched) can be
stated; each session operation also reports the UPDATE statements it sent
to the database. -/

structure EditorSession where
  db : Db
  model : TableModel
deriving DecidableEq

/-- `discard_edit` at the session level: it touches only the in-memory
overlay and issues no statement. -/
def sessionDiscardEdit (s : EditorSession) (rid : RowIdentity) (col : String) :
    EditorSession × List UpdateStmt :=
  ({ s with model := discard_edit s.model rid col }, [])

/-- `discard_all` at the session level: it touches only the in-memory
overlay and issues no statement. -/
def sessionDiscardAll (s : EditorSession) : EditorSession × List UpdateStmt :=
  ({ s with model := discard_all s.model }, [])

/-! ## Plugin adapter (translated from `src/src/lib.rs`)

`TableEditorPlugin` owns a map from numeric ids to editor storage and a
`next_editor_id` counter.  `create_editor` builds a `DataTableEditor` panel
by opening the database — falling back to a fresh empty editor when opening
fails (`unwrap_or_else` at `src/src/lib.rs:131`) — wraps it, registers it
under the current `next_editor_id` (which is then incremented), and returns
the wrapper; any other `editor_id` yields `PluginError::EditorNotFound`.
The GPUI window/context parameters and logging are presentation-side and
carry no data-model state.  The result of `DataTableEditor::open_database`
is abstracted as an `Option TableModel` parameter: `some` when opening
produced a model, `none` when it failed. -/

/-- The plugin's error type, from `plugin_editor_api`: the variant
`create_editor` can produce. -/
inductive PluginError where
  | editorNotFound (editorId : String)
deriving DecidableEq

/-- The `DataTableEditor` panel state: the table model it holds, when a
database was opened successfully; a fresh editor holds none. -/
structure DataTableEditorM where
  model : Option TableModel
deriving DecidableEq

/-- `DataTableEditor::new`: a fresh, empty editor. -/
def DataTableEditorM.fresh : DataTableEditorM :=
  ⟨none⟩

/-- `TableEditorWrapper`: the panel and the path it was opened with. -/
structure TableEditorWrapperM where
  panel : DataTableEditorM
  filePath : String
deriving DecidableEq

/-- `EditorStorage`: what the plugin retains per editor instance. -/
structure EditorStorageM where
  panel : DataTableEditorM
  wrapper : TableEditorWrapperM
deriving DecidableEq

/-- `TableEditorPlugin`'s own state: the editor map and the id counter. -/
structure PluginStateM where
  editors : List (Nat × EditorStorageM)
  nextEditorId : Nat
deriving DecidableEq

/-- `TableEditorPlugin::default()`. -/
def PluginStateM.default : PluginStateM :=
  ⟨[], 0⟩

/-- `TableEditorPlugin::create_editor` (src/src/lib.rs:119-160).
`openResult` is the outcome of `DataTableEditor::open_database(file_path)`:
when it is `none` (opening failed), the code logs the error and substitutes
`DataTableEditor::new` — the panel is `⟨openResult⟩` either way.  The plugin
state is returned alongside the result; on the error path it is returned
unchanged, exactly as the code mutates `self.editors` and `next_editor_id`
only on the `"table-editor"` branch. -/
def create_editor (st : PluginStateM) (editorId : String) (filePath : String)
    (openResult : Option TableModel) :
    PluginStateM × Except PluginError TableEditorWrapperM :=
  if editorId = "table-editor" then
    let panel : DataTableEditorM := ⟨openResult⟩
    let wrapper : TableEditorWrapperM := ⟨panel, filePath⟩
    let id := st.nextEditorId
    ({ editors := (id, ⟨panel, wrapper⟩) :: st.editors, nextEditorId := id + 1 },
      .ok wrapper)
  else
    (st, .error (.editorNotFound editorId))

/-- `TableEditorWrapper::file_path` (src/src/lib.rs:181-183). -/
def TableEditorWrapperM.file_path (w : TableEditorWrapperM) : String :=
  w.filePath

/-- `TableEditorWrapper::is_dirty` (src/src/lib.rs:197-199): the wrapper
reports `false` unconditionally. -/
def TableEditorWrapperM.is_dirty (_ : TableEditorWrapperM) : Bool :=
  false

/-- A one-row, one-column editable page with no staged edits, for the C4
witness. -/
def modelC4 : TableModel :=
  ⟨buildTable "t" [⟨"a", "INT", false, true, none⟩] false,
    [⟨[Value.integer 1], [("a", Value.integer 7)]⟩], []⟩

/-- `modelC4` after staging the edit `42` on its only cell. -/
def modelC4S : TableModel :=
  { modelC4 with
    staged := [(([Value.integer 1], "a"), ⟨Value.integer 7, Value.integer 42⟩)] }

/-! ## Helper lemmas -/

theorem leadsWith_iff (n h : List Char) :
    leadsWith n h = true ↔ ∃ t, h = n ++ t := by
  induction n generalizing h with
  | nil => simp [leadsWith]
  | cons a t ih =>
    cases h with
    | nil => simp [leadsWith]
    | cons b u =>
      simp only [leadsWith, Bool.and_eq_true, decide_eq_true_eq, ih,
        List.cons_append, List.cons.injEq]
      constructor
      · rintro ⟨rfl, s, rfl⟩
        exact ⟨s, rfl, rfl⟩
      · rintro ⟨s, rfl, rfl⟩
        exact ⟨rfl, s, rfl⟩

theorem containsSeq_iff (n h : List Char) :
    containsSeq n h = true ↔ containsSeqP n h := by
  induction h with
  | nil =>
    simp only [containsSeq, leadsWith_iff, containsSeqP]
    constructor
    · rintro ⟨t, ht⟩
      exact ⟨[], t, by simpa using ht⟩
    · rintro ⟨l, r, hlr⟩
      have : l = [] ∧ n ++ r = [] := by
        constructor
        · cases l with
          | nil => rfl
          | cons x xs => simp at hlr
        · cases l with
          | nil => simpa using hlr.symm
          | cons x xs => simp at hlr
      exact ⟨r, this.2.symm⟩
  | cons c t ih =>
    simp only [containsSeq, Bool.or_eq_true, leadsWith_iff, ih, containsSeqP]
    constructor
    · rintro (⟨s, hs⟩ | ⟨l, r, rfl⟩)
      · exact ⟨[], s, by simpa using hs⟩
      · exact ⟨c :: l, r, rfl⟩
    · rintro ⟨l, r, hlr⟩
      cases l with
      | nil =>
        exact Or.inl ⟨r, by simpa using hlr⟩
      | cons x xs =>
        simp only [List.cons_append, List.cons.injEq] at hlr
        exact Or.inr ⟨xs, r, hlr.2⟩

theorem matchesAny_iff (kws : List String) (ty : String) :
    matchesAny kws ty = true ↔ matchesAnyP kws ty := by
  simp only [matchesAny, matchesAnyP, List.any_eq_true, containsSeq_iff]

theorem lookupA_none_eraseA {α β : Type} [DecidableEq α]
    (l : List (α × β)) (x : α) (h : lookupA l x = none) : eraseA l x = l := by
  induction l with
  | nil => rfl
  | cons p t ih =>
    obtain ⟨a, b⟩ := p
    by_cases hx : x = a
    · simp [lookupA, hx] at h
    · simp only [lookupA, if_neg hx] at h
      simp [eraseA, if_neg hx, ih h]

/-! ### Transaction lemmas -/

theorem execStmts_fail_eq_snapshot (snapshot : Db) (fails : UpdateStmt → Bool)
    (l : List UpdateStmt) :
    ∀ (db : Db) (g : RowIdentity),
      (execStmts snapshot db fails l).2 = some g →
      (execStmts snapshot db fails l).1 = snapshot := by
  induction l with
  | nil => intro db g h; simp [execStmts] at h
  | cons st rest ih =>
    intro db g h
    by_cases hf : fails st
    · simp [execStmts, hf]
    · simp only [execStmts, if_neg hf] at h ⊢
      exact ih (applyStmt db st) g h

theorem execStmts_no_fail (snapshot : Db) (fails : UpdateStmt → Bool)
    (l : List UpdateStmt) (hl : ∀ st ∈ l, fails st = false) :
    ∀ db : Db, execStmts snapshot db fails l = (l.foldl applyStmt db, none) := by
  induction l with
  | nil => intro db; simp [execStmts]
  | cons st rest ih =>
    intro db
    have hst : fails st = false := hl st (by simp)
    have hrest : ∀ s ∈ rest, fails s = false := fun s hs => hl s (by simp [hs])
    simp only [execStmts, hst, Bool.false_eq_true, if_false, List.foldl_cons]
    exact ih hrest (applyStmt db st)

theorem lookupA_applyStmt_ne (db : Db) (st : UpdateStmt) (r : RowIdentity)
    (h : r ≠ st.rid) : lookupA (applyStmt db st) r = lookupA db r := by
  induction db with
  | nil => rfl
  | cons p t ih =>
    obtain ⟨a, row⟩ := p
    by_cases ha : a = st.rid
    · subst ha
      simp only [applyStmt, List.map_cons, if_pos rfl]
      simp only [lookupA, if_neg h]
      simpa [applyStmt] using ih
    · simp only [applyStmt, List.map_cons, if_neg ha]
      by_cases hr : r = a
      · simp [lookupA, hr]
      · simp only [lookupA, if_neg hr]
        simpa [applyStmt] using ih

theorem lookupA_applyStmt_self (db : Db) (st : UpdateStmt) :
    lookupA (applyStmt db st) st.rid =
      (lookupA db st.rid).map fun row => applySets row st.sets := by
  induction db with
  | nil => rfl
  | cons p t ih =>
    obtain ⟨a, row⟩ := p
    by_cases ha : st.rid = a
    · subst ha
      simp only [applyStmt, List.map_cons]
      simp [lookupA]
    · have ha' : a ≠ st.rid := fun h => ha h.symm
      simp only [applyStmt, List.map_cons, if_neg ha']
      simp only [lookupA, if_neg ha]
      simpa [applyStmt] using ih

theorem lookupA_foldl_not_mem (l : List UpdateStmt) :
    ∀ (db : Db) (r : RowIdentity), r ∉ l.map (fun st => st.rid) →
      lookupA (l.foldl applyStmt db) r = lookupA db r := by
  induction l with
  | nil => intro db r _; rfl
  | cons st rest ih =>
    intro db r hr
    simp only [List.map_cons, List.mem_cons, not_or] at hr
    simp only [List.foldl_cons]
    rw [ih (applyStmt db st) r hr.2, lookupA_applyStmt_ne db st r hr.1]

theorem lookupA_foldl_mem (l : List UpdateStmt) :
    ∀ (db : Db) (st : UpdateStmt), st ∈ l →
      (l.map (fun s => s.rid)).Nodup →
      lookupA (l.foldl applyStmt db) st.rid =
        (lookupA db st.rid).map fun row => applySets row st.sets := by
  induction l with
  | nil => intro db st h; simp at h
  | cons s0 rest ih =>
    intro db st hmem hnd
    simp only [List.map_cons, List.nodup_cons] at hnd
    rcases List.mem_cons.mp hmem with heq | hrest
    · subst heq
      simp only [List.foldl_cons]
      have hnot : st.rid ∉ rest.map fun s => s.rid := hnd.1
      rw [lookupA_foldl_not_mem rest (applyStmt db st) st.rid hnot,
        lookupA_applyStmt_self]
    · have hne : st.rid ≠ s0.rid := by
        intro h
        exact hnd.1 (h ▸ List.mem_map.mpr ⟨st, hrest, rfl⟩)
      simp only [List.foldl_cons]
      rw [ih (applyStmt db s0) st hrest hnd.2,
        lookupA_applyStmt_ne db s0 st.rid hne]

theorem groupByRid_keys (staged : StagedMap) :
    (groupByRid staged).map (fun g => g.1) = stagedRids staged := by
  rw [groupByRid, List.map_map]
  exact List.map_id _

theorem groupByRid_keys_nodup (staged : StagedMap) :
    ((groupByRid staged).map fun g => g.1).Nodup := by
  rw [groupByRid_keys]
  exact List.nodup_dedup _

/-! ## Claim theorems -/

/-- C3: for every representable Value whose tag is consistent with a
ValueKind `k`, `from_native (to_native v) k = v`: the conversions are exact
inverses, in particular for NULL, zero-length text, zero-length blobs and
the 64-bit signed integer bounds. -/
theorem from_native_to_native_roundtrip (v : Value) (k : ValueKind)
    (hrep : representable v = true) (htag : tagConsistent v k = true) :
    from_native (to_native v) k = v := by
  cases v <;> cases k <;>
    first
    | rfl
    | (rename_i b; cases b <;> rfl)
    | (simp [tagConsistent] at htag)

/-- C3 witness: the round-trip at NULL, zero-length text, zero-length blob
and the minimum and maximum 64-bit signed integers. -/
theorem from_native_to_native_roundtrip_witness :
    from_native (to_native .null) .nullKind = Value.null ∧
    from_native (to_native (.text "")) .text = .text "" ∧
    from_native (to_native (.blob [])) .blob = .blob [] ∧
    from_native (to_native (.integer (-(2 ^ 63)))) .integer =
      .integer (-(2 ^ 63)) ∧
    from_native (to_native (.integer (2 ^ 63 - 1))) .integer =
      .integer (2 ^ 63 - 1) :=
  ⟨from_native_to_native_roundtrip .null .nullKind (by decide) (by decide),
   from_native_to_native_roundtrip (.text "") .text (by decide) (by decide),
   from_native_to_native_roundtrip (.blob []) .blob (by decide) (by decide),
   from_native_to_native_roundtrip (.integer (-(2 ^ 63))) .integer
     (by decide) (by decide),
   from_native_to_native_roundtrip (.integer (2 ^ 63 - 1)) .integer
     (by decide) (by decide)⟩

/-- C5: for every nullable flag and kind, `validate "abc"` at integer kind
fails with a ValidationError; `validate "42"` at integer kind succeeds with
the Value 42 and `format` renders it back as `"42"`; and validating the null
literal succeeds exactly when the column is nullable. -/
theorem cell_editor_validation (nullable : Bool) (k : ValueKind) :
    isValidationFailure (validate .integer nullable "abc") = true ∧
    validate .integer nullable "42" = .ok (.integer 42) ∧
    format (.integer 42) = "42" ∧
    (validate k nullable nullLiteral = .ok .null ↔ nullable = true) := by
  cases nullable <;> cases k <;>
    refine ⟨by decide, rfl, by decide, ?_⟩ <;>
    constructor <;> intro h <;> simp_all [validate, nullLiteral]

/-- C6: `kind_of` determines the ValueKind by substring matching against the
canonical affinity keyword groups in order (integer-like, real-like,
text-like, blob-like), and a declared type matching none of the groups maps
to text affinity. -/
theorem kind_of_uses_affinity_keywords (ty : String) :
    (matchesAnyP intKeywords ty → kind_of ty = .integer) ∧
    (¬matchesAnyP intKeywords ty → matchesAnyP realKeywords ty →
      kind_of ty = .real) ∧
    (¬matchesAnyP intKeywords ty → ¬matchesAnyP realKeywords ty →
      matchesAnyP textKeywords ty → kind_of ty = .text) ∧
    (¬matchesAnyP intKeywords ty → ¬matchesAnyP realKeywords ty →
      ¬matchesAnyP textKeywords ty → matchesAnyP blobKeywords ty →
      kind_of ty = .blob) ∧
    (¬matchesAnyP intKeywords ty → ¬matchesAnyP realKeywords ty →
      ¬matchesAnyP textKeywords ty → ¬matchesAnyP blobKeywords ty →
      kind_of ty = .text) := by
  have hb : ∀ kws : List String, ¬matchesAnyP kws ty → matchesAny kws ty = false := by
    intro kws h
    cases hm : matchesAny kws ty with
    | false => rfl
    | true => exact absurd ((matchesAny_iff kws ty).mp hm) h
  refine ⟨?_, ?_, ?_, ?_, ?_⟩
  · intro h
    simp [kind_of, (matchesAny_iff _ _).mpr h]
  · intro h1 h2
    simp [kind_of, hb _ h1, (matchesAny_iff _ _).mpr h2]
  · intro h1 h2 h3
    simp [kind_of, hb _ h1, hb _ h2, (matchesAny_iff _ _).mpr h3]
  · intro h1 h2 h3 h4
    simp [kind_of, hb _ h1, hb _ h2, hb _ h3, (matchesAny_iff _ _).mpr h4]
  · intro h1 h2 h3 h4
    simp [kind_of, hb _ h1, hb _ h2, hb _ h3, hb _ h4]

/-- C10: `TableEditorWrapper::is_dirty` returns false for every wrapper
state: at the `EditorInstance` interface the editor is never dirty,
whatever staged edits the underlying table model holds. -/
theorem wrapper_never_dirty (w : TableEditorWrapperM) :
    w.is_dirty = false :=
  rfl

/-- C9: `create_editor` with an unknown editor id returns
`EditorNotFound` and leaves the plugin state (the editor map included)
unchanged; with `"table-editor"` it returns Ok, registers the instance
under the current `next_editor_id` and increments the counter, and the
returned wrapper's `file_path` is the path passed in. -/
theorem create_editor_registers_or_rejects (st : PluginStateM)
    (editorId filePath : String) (openResult : Option TableModel) :
    (editorId ≠ "table-editor" →
      create_editor st editorId filePath openResult =
        (st, .error (.editorNotFound editorId))) ∧
    (editorId = "table-editor" →
      ∃ w : TableEditorWrapperM,
        create_editor st editorId filePath openResult =
          ({ editors := (st.nextEditorId, ⟨⟨openResult⟩, w⟩) :: st.editors,
             nextEditorId := st.nextEditorId + 1 }, .ok w) ∧
        w.file_path = filePath) := by
  constructor
  · intro h
    simp [create_editor, h]
  · intro h
    subst h
    exact ⟨⟨⟨openResult⟩, filePath⟩, by simp [create_editor], rfl⟩

/-- C8 counterexample: opening an invalid or unreadable database is a
failure `create_editor` swallows — with `"table-editor"` and a failed
`open_database` (modelled by `openResult = none`) it still returns Ok,
substituting a fresh empty editor for the failed open instead of returning
a typed error. -/
theorem create_editor_swallows_open_failure :
    (create_editor PluginStateM.default "table-editor" "corrupt.db" none).2 =
      .ok ⟨DataTableEditorM.fresh, "corrupt.db"⟩ ∧
    ∀ e : PluginError,
      (create_editor PluginStateM.default "table-editor" "corrupt.db" none).2 ≠
        .error e := by
  constructor
  · rfl
  · intro e h
    simp [create_editor, PluginStateM.default] at h

/-- C8 amended: `create_editor` returns the typed error
`EditorNotFound` for an unknown editor id, but a failure of
`DataTableEditor::open_database` is reported only via logging: the call
still returns Ok, substituting a fresh empty editor (the `unwrap_or_else`
fallback at src/src/lib.rs:131-134). -/
theorem create_editor_error_reporting (st : PluginStateM)
    (editorId filePath : String) (openResult : Option TableModel) :
    (editorId ≠ "table-editor" →
      (create_editor st editorId filePath openResult).2 =
        .error (.editorNotFound editorId)) ∧
    (editorId = "table-editor" → openResult = none →
      (create_editor st editorId filePath openResult).2 =
        .ok ⟨DataTableEditorM.fresh, filePath⟩) := by
  constructor
  · intro h
    simp [create_editor, h]
  · intro h hopen
    subst h
    subst hopen
    rfl

/-- C7: a table with no primary key and no usable implicit row identity is
marked read-only by the schema, and `stage_edit` on any of its cells fails
deterministically, returning the model unchanged with no StagedEdit
recorded. -/
theorem no_identity_table_is_read_only (name : String)
    (cols : List ColumnDescriptor) (m : TableModel) (rid : RowIdentity)
    (col raw : String)
    (hpk : ∀ c ∈ cols, c.isPrimaryKey = false)
    (ht : m.table = buildTable name cols false) :
    readOnly m.table = true ∧
    stage_edit m rid col raw = (m, some ⟨"table is read-only"⟩) := by
  have hfilter : cols.filter (fun c => c.isPrimaryKey) = [] := by
    rw [List.filter_eq_nil_iff]
    intro c hc
    simp [hpk c hc]
  have hro : readOnly m.table = true := by
    rw [ht]
    simp [buildTable, readOnly, rowIdentityStrategyOf, hfilter]
  exact ⟨hro, by simp [stage_edit, hro]⟩

/-- C7 witness: a one-column table with no primary key flag and no implicit
row id is read-only, and staging any edit on it fails without mutating the
model. -/
theorem no_identity_table_is_read_only_witness :
    readOnly (TableModel.mk
      (buildTable "t" [⟨"a", "INT", true, false, none⟩] false) [] []).table
      = true ∧
    stage_edit
      ⟨buildTable "t" [⟨"a", "INT", true, false, none⟩] false, [], []⟩
      [] "a" "1" =
      (⟨buildTable "t" [⟨"a", "INT", true, false, none⟩] false, [], []⟩,
        some ⟨"table is read-only"⟩) :=
  no_identity_table_is_read_only "t" [⟨"a", "INT", true, false, none⟩]
    ⟨buildTable "t" [⟨"a", "INT", true, false, none⟩] false, [], []⟩
    [] "a" "1" (by decide) rfl

/-- C4: staging a validated edit on a clean cell and then discarding it
returns the model to its pre-edit state: the cell shows the originally
loaded Value again, `dirty_count` is back to its pre-edit value, and the
discard operations issue no database statement and leave the database
untouched. -/
theorem stage_then_discard_restores (m : TableModel) (rid : RowIdentity)
    (col raw : String) (m' : TableModel)
    (hclean : lookupA m.staged (rid, col) = none)
    (h : stage_edit m rid col raw = (m', none)) :
    discard_edit m' rid col = m ∧
    value_at (discard_edit m' rid col) rid col = loaded_value m rid col ∧
    dirty_count (discard_edit m' rid col) = dirty_count m ∧
    (∀ (s : EditorSession) (r : RowIdentity) (c : String),
      (sessionDiscardEdit s r c).2 = [] ∧
      (sessionDiscardEdit s r c).1.db = s.db ∧
      (sessionDiscardAll s).2 = [] ∧
      (sessionDiscardAll s).1.db = s.db) := by
  have h1 : eraseA m.staged (rid, col) = m.staged :=
    lookupA_none_eraseA _ _ hclean
  have hd : discard_edit m' rid col = m := by
    simp only [stage_edit] at h
    split at h
    · simp at h
    · split at h
      · simp at h
      · split at h
        · simp at h
        · split at h
          · simp at h
          · rename_i orig horig
            rw [Prod.mk.injEq] at h
            obtain ⟨hm, -⟩ := h
            rw [← hm]
            simp only [discard_edit, insertA]
            rw [h1]
            simp only [eraseA, if_pos rfl]
            rw [h1]
            simp
  refine ⟨hd, ?_, ?_, ?_⟩
  · rw [hd]
    simp [value_at, hclean]
  · rw [hd]
  · intro s r c
    exact ⟨rfl, rfl, rfl, rfl⟩

/-- C4 witness: staging `"42"` on the clean cell of `modelC4` and discarding
it restores the model exactly. -/
theorem stage_then_discard_restores_witness :
    discard_edit modelC4S [Value.integer 1] "a" = modelC4 :=
  (stage_then_discard_restores modelC4 [Value.integer 1] "a" "42" modelC4S
    rfl (by decide)).1

/-- C1: whenever a commit attempt ends rolled back (some statement of the
transaction failed), the database state after the attempt equals the state
before it: no partial writes are left committed. -/
theorem commit_rolls_back_on_failure (db : Db) (staged : StagedMap)
    (fails : UpdateStmt → Bool) (g : RowIdentity)
    (h : (commit db staged fails).2.result = .rolledBack g) :
    (commit db staged fails).1 = db := by
  unfold commit at h ⊢
  rcases hexec : execStmts db db fails (commitStmts db staged) with ⟨db2, role⟩
  cases role with
  | none => rw [hexec] at h; simp at h
  | some g' => rfl

/-- C1 witness: a non-conflicting staged edit whose statement is made to
fail rolls the database back to its pre-commit state. -/
theorem commit_rolls_back_on_failure_witness :
    (commit [([Value.integer 1], [("a", Value.integer 0)])]
        [(([Value.integer 1], "a"), ⟨Value.integer 0, Value.integer 5⟩)]
        fun _ => true).1 =
      [([Value.integer 1], [("a", Value.integer 0)])] :=
  commit_rolls_back_on_failure _ _ _ [Value.integer 1] (by decide)

/-- C2: with no statement failure, commit always completes (a conflict never
aborts the whole commit); every conflicting group — one whose re-read
current column values differ from the recorded originals — is excluded from
the transaction (its row is untouched) and reported in the outcome's
conflict list, while every non-conflicting group's staged edits are applied
to its row. -/
theorem commit_isolates_conflicts (db : Db) (staged : StagedMap) :
    ((commit db staged fun _ => false).2.result =
      .committed (commitStmts db staged).length) ∧
    ∀ g ∈ groupByRid staged,
      (hasConflict db g = true →
        g.1 ∈ (commit db staged fun _ => false).2.conflicts ∧
        lookupA (commit db staged fun _ => false).1 g.1 = lookupA db g.1) ∧
      (hasConflict db g = false →
        g.1 ∉ (commit db staged fun _ => false).2.conflicts ∧
        lookupA (commit db staged fun _ => false).1 g.1 =
          (lookupA db g.1).map fun row => applySets row (buildStmt g).sets) := by
  have hexec := execStmts_no_fail db (fun _ => false) (commitStmts db staged)
    (fun _ _ => rfl) db
  have hcommit : commit db staged (fun _ => false) =
      ((commitStmts db staged).foldl applyStmt db,
        ⟨conflictRids db staged, .committed (commitStmts db staged).length⟩) := by
    unfold commit
    rw [hexec]
  have hnodup := groupByRid_keys_nodup staged
  have hstmtrids : (commitStmts db staged).map (fun st => st.rid) =
      (((groupByRid staged).filter fun g => !hasConflict db g).map fun g => g.1) := by
    unfold commitStmts
    rw [List.map_map]
    rfl
  have hinj : ∀ g ∈ groupByRid staged, ∀ g' ∈ groupByRid staged,
      g.1 = g'.1 → g = g' := by
    intro g hg g' hg' hgg
    exact List.inj_on_of_nodup_map hnodup hg hg' hgg
  constructor
  · rw [hcommit]
  · intro g hg
    constructor
    · intro hc
      constructor
      · rw [hcommit]
        exact List.mem_map.mpr ⟨g, List.mem_filter.mpr ⟨hg, by simp [hc]⟩, rfl⟩
      · rw [hcommit]
        apply lookupA_foldl_not_mem
        rw [hstmtrids]
        intro hmem
        obtain ⟨g', hg', hgg⟩ := List.mem_map.mp hmem
        obtain ⟨hg'groups, hg'clean⟩ := List.mem_filter.mp hg'
        have : g' = g := hinj g' hg'groups g hg hgg
        subst this
        simp [hc] at hg'clean
    · intro hc
      constructor
      · rw [hcommit]
        intro hmem
        obtain ⟨g', hg', hgg⟩ := List.mem_map.mp hmem
        obtain ⟨hg'groups, hg'confl⟩ := List.mem_filter.mp hg'
        have : g' = g := hinj g' hg'groups g hg hgg
        subst this
        simp [hc] at hg'confl
      · rw [hcommit]
        have hmem : buildStmt g ∈ commitStmts db staged :=
          List.mem_map.mpr ⟨g, List.mem_filter.mpr ⟨hg, by simp [hc]⟩, rfl⟩
        have hsub : (((groupByRid staged).filter
            fun g => !hasConflict db g).map fun g => g.1).Sublist
            ((groupByRid staged).map fun g => g.1) :=
          (List.filter_sublist _).map _
        have hndst : ((commitStmts db staged).map fun st => st.rid).Nodup := by
          rw [hstmtrids]
          exact hnodup.sublist hsub
        exact lookupA_foldl_mem (commitStmts db staged) db (buildStmt g)
          hmem hndst

end DBTable
